import Mathlib

/-!
Verification of the retro-neural training/fusion/visualization app.

The embedding models the two source files:
* `src/App.tsx` — network fusion (`averageWeights`), tolerance accuracy
  (`calculateAccuracy`), dataset generators, and the training loop
  (`trainNetworks`);
* `NetworkVisualization.tsx` — the simulated activation signal
  (`generateActivations`) and the edge-selection part of `draw`.

Numeric values are modelled by exact rationals (`ℚ`); the activation
signal, which goes through `Math.sin`, is modelled over `ℝ`.
A parameter tensor is a flat `List ℚ`; a network's parameter set is a
`List (List ℚ)` in the order reported by `getWeights`.
-/

namespace RetroNeural

/-- Element-wise tensor addition, the model of tf's `w1.add(w2)` for two
tensors of identical shape. -/
def tensorAdd (w1 w2 : List ℚ) : List ℚ :=
  List.zipWith (fun a b => a + b) w1 w2

/-- Element-wise division by 2, the model of tf's `.div(2)`. -/
def tensorDiv2 (w : List ℚ) : List ℚ :=
  w.map (fun a => a / 2)

/-- Model of `averageWeights` from `src/App.tsx` (lines 78–90): the fused parameter
list pairs up the two weight lists positionally and averages each pair of
tensors element-wise (`w1.add(w2).div(2)`).  The two lists have equal
structure by construction (both networks come from `createNetwork`). -/
def averageWeights (weights1 weights2 : List (List ℚ)) : List (List ℚ) :=
  List.zipWith (fun w1 w2 => tensorDiv2 (tensorAdd w1 w2)) weights1 weights2

/-- Model of `calculateAccuracy` from `src/App.tsx` (lines 93–99): the fraction of
records whose absolute prediction error is at most 0.5.  `diff` models
`predictions.sub(targets).abs()`, the count models
`diff.lessEqual(0.5).sum()`, and the denominator `predictions.shape[0]`
is the number of predictions. -/
def calculateAccuracy (predictions targets : List ℚ) : ℚ :=
  let diff := List.zipWith (fun p t => |p - t|) predictions targets
  let correct := (diff.filter (fun d => d ≤ 1/2)).length
  (correct : ℚ) / (predictions.length : ℚ)

/-- Model of `generateAdditionData` from `src/App.tsx` (lines 39–49): inputs are all
pairs (a, b) with a, b ranging over 0..9 in row-major loop order, outputs
are the sums. -/
def generateAdditionData : List (ℚ × ℚ) × List ℚ :=
  let records := (List.range 10).flatMap (fun (a : ℕ) =>
    (List.range 10).map (fun (b : ℕ) =>
      (((a : ℚ), (b : ℚ)), (a : ℚ) + (b : ℚ))))
  (records.map Prod.fst, records.map Prod.snd)

/-- Model of `generateMultiplicationData` from `src/App.tsx` (lines 52–62): inputs
are all pairs (a, b) with a, b ranging over 0..9, outputs are the
products. -/
def generateMultiplicationData : List (ℚ × ℚ) × List ℚ :=
  let records := (List.range 10).flatMap (fun (a : ℕ) =>
    (List.range 10).map (fun (b : ℕ) =>
      (((a : ℚ), (b : ℚ)), (a : ℚ) * (b : ℚ))))
  (records.map Prod.fst, records.map Prod.snd)

/-- Model of `generateDivisionData` from `src/App.tsx` (lines 65–75): inputs are all
pairs (a, b) with a, b ranging over 1..9 (the loops start at 1, avoiding a
zero denominator), outputs are the quotients. -/
def generateDivisionData : List (ℚ × ℚ) × List ℚ :=
  let records := (List.range 9).flatMap (fun (i : ℕ) =>
    (List.range 9).map (fun (j : ℕ) =>
      (((i : ℚ) + 1, (j : ℚ) + 1), ((i : ℚ) + 1) / ((j : ℚ) + 1))))
  (records.map Prod.fst, records.map Prod.snd)

/-! ## Trainer (`trainNetworks`, `src/App.tsx` lines 102–189)

The epoch loop is modelled as a state machine over the three stats
histories.  The outcomes of the framework calls (`fit`, `predict`) are
abstracted by an oracle: for each epoch it says whether each call
succeeds and what loss/accuracy values result.  A failing call throws in
the source; the thrown exception propagates out of the `async` function,
so the loop stops with whatever stats updates had already been applied. -/

/-- Model of `NetworkStats` from `src/App.tsx` (lines 6–12): one per-epoch record. -/
structure NetworkStats where
  epoch : Nat
  loss : ℚ
  accuracy : ℚ
  testLoss : Option ℚ := none
  testAccuracy : Option ℚ := none
  deriving Repr, DecidableEq

/-- The three stats histories kept in React state by `App`. -/
structure TrainState where
  additionStats : List NetworkStats
  multiplicationStats : List NetworkStats
  mergedStats : List NetworkStats
  deriving Repr, DecidableEq

/-- The empty stats state, as set by `setAdditionStats([])` etc. at the
start of `trainNetworks`. -/
def emptyTrainState : TrainState :=
  { additionStats := [], multiplicationStats := [], mergedStats := [] }

/-- Oracle abstracting the tf.js calls inside one epoch of
`trainNetworks`: whether each `fit`/`predict` call at a given 0-based
epoch counter succeeds, and the loss/accuracy numbers it produces. -/
structure FitOracle where
  addFitOk : Nat → Bool
  addPredOk : Nat → Bool
  multFitOk : Nat → Bool
  multPredOk : Nat → Bool
  divPredOk : Nat → Bool
  addLoss : Nat → ℚ
  addAcc : Nat → ℚ
  multLoss : Nat → ℚ
  multAcc : Nat → ℚ
  divLoss : Nat → ℚ
  divAcc : Nat → ℚ

/-- One iteration of the `for` loop in `trainNetworks` at 0-based epoch
counter `e`.  In source order: `addNet.fit`, `addNet.predict`, append the
addition stat; `multNet.fit`, `multNet.predict`, append the
multiplication stat; fuse (`averageWeights`, infallible under the
architecture precondition), `merged.predict`, append the merged stat.  A
failing call aborts the iteration, returning (`.error`) the state as
already updated by the appends that preceded the failure. -/
def runEpoch (o : FitOracle) (e : Nat) (s : TrainState) :
    Except TrainState TrainState :=
  if o.addFitOk e && o.addPredOk e then
    let s1 := { s with additionStats := s.additionStats ++
      [{ epoch := e + 1, loss := o.addLoss e, accuracy := o.addAcc e }] }
    if o.multFitOk e && o.multPredOk e then
      let s2 := { s1 with multiplicationStats := s1.multiplicationStats ++
        [{ epoch := e + 1, loss := o.multLoss e, accuracy := o.multAcc e }] }
      if o.divPredOk e then
        .ok { s2 with mergedStats := s2.mergedStats ++
          [{ epoch := e + 1, loss := o.divLoss e, accuracy := o.divAcc e,
             testLoss := some (o.divLoss e),
             testAccuracy := some (o.divAcc e) }] }
      else .error s2
    else .error s1
  else .error s

/-- Runs `n` remaining epochs starting at epoch counter `e`.  Returns the
final state and `true` when the loop completed, or the state at the
failure and `false` when an iteration threw. -/
def runSessionAux (o : FitOracle) : Nat → Nat → TrainState → TrainState × Bool
  | 0, _, s => (s, true)
  | n + 1, e, s =>
    match runEpoch o e s with
    | .ok s' => runSessionAux o n (e + 1) s'
    | .error s' => (s', false)

/-- Model of `trainNetworks` from `src/App.tsx`: first resets all three histories
to empty (`setAdditionStats([])` …), then runs the epoch loop from
counter 0.  `prior` is whatever histories a previous session left behind;
the reset discards it. -/
def trainNetworks (prior : TrainState) (o : FitOracle) (epochs : Nat) :
    TrainState × Bool :=
  let _ := prior
  runSessionAux o epochs 0 emptyTrainState

/-- All five fallible calls of epoch `e` succeed. -/
def epochAllOk (o : FitOracle) (e : Nat) : Bool :=
  o.addFitOk e && o.addPredOk e && o.multFitOk e && o.multPredOk e &&
    o.divPredOk e

/-! ## Simulated activations (`NetworkVisualization.tsx`, lines 26–36) -/

/-- JavaScript's `%` on nonnegative reals: `x - y * ⌊x / y⌋`. -/
noncomputable def jsMod (x y : ℝ) : ℝ := x - y * (⌊x / y⌋ : ℤ)

/-- The per-node scalar produced by `generateActivations` for layer index
`layerIdx`, node index `nodeIdx`, at wall-clock time `time` (seconds):
`0.3 + 0.4 * Math.sin((time * 0.5 + layerIdx * 0.3 + nodeIdx * 0.1) % (Math.PI * 2))`. -/
noncomputable def generateActivation (layerIdx nodeIdx : Nat) (time : ℝ) : ℝ :=
  let phase := jsMod (time * 0.5 + (layerIdx : ℝ) * 0.3 + (nodeIdx : ℝ) * 0.1)
    (Real.pi * 2)
  0.3 + 0.4 * Real.sin phase

/-- The whole activation frame built by `generateActivations`: one list per
layer of the hard-coded layer sizes `[2, 16, 16, 1]`. -/
noncomputable def generateActivations (time : ℝ) : List (List ℝ) :=
  let layers := [2, 16, 16, 1]
  layers.mapIdx (fun layerIdx size =>
    (List.range size).map (fun nodeIdx => generateActivation layerIdx nodeIdx time))

/-! ## Visualizer edge selection (`NetworkVisualization.tsx`, lines 96–153)

For one adjacent layer pair, `draw` collects every (source, target)
connection with its signed weight and magnitude, sorts them by descending
magnitude, computes the selection count `topConnections`, the magnitude
`threshold` of the k-th ranked connection, and then draws ranked
connections until either k are drawn or one's magnitude falls below half
the threshold.  `fromLayerLen`/`toLayerLen` are the node counts of the
layout columns, `fromNodes`/`toNodes` the dimensions of the weight
matrix's shape; `weightData` is the row-major flat weight data. -/

structure Conn where
  fromIdx : Nat
  toIdx : Nat
  weight : ℚ
  absWeight : ℚ
  deriving Repr, DecidableEq

/-- The candidate connection list built by the two nested `for` loops:
`fromIdx < min(fromLayer.length, fromNodes)`,
`toIdx < min(toLayer.length, toNodes)`, weight read at the row-major index
`fromIdx * toNodes + toIdx`. -/
def connectionWeights (weightData : List ℚ)
    (fromLayerLen fromNodes toLayerLen toNodes : Nat) : List Conn :=
  (List.range (min fromLayerLen fromNodes)).flatMap (fun fromIdx =>
    (List.range (min toLayerLen toNodes)).map (fun toIdx =>
      let dataIdx := fromIdx * toNodes + toIdx
      let weight := weightData.getD dataIdx 0
      { fromIdx := fromIdx, toIdx := toIdx, weight := weight,
        absWeight := |weight| }))

/-- The sort comparator `(a, b) => b.absWeight - a.absWeight`: `a` may come
before `b` exactly when `a`'s magnitude is at least `b`'s. -/
def connDesc (a b : Conn) : Bool := b.absWeight ≤ a.absWeight

/-- Model of `connectionWeights.sort((a, b) => b.absWeight - a.absWeight)`. -/
def sortConnections (conns : List Conn) : List Conn := conns.mergeSort connDesc

/-- Model of `topConnections = max(ceil(length * 0.3), min(fromLayer.length,
toLayer.length))`. -/
def topConnections (conns : List Conn) (fromLayerLen toLayerLen : Nat) : Nat :=
  max (Nat.ceil ((conns.length : ℚ) * (3/10))) (min fromLayerLen toLayerLen)

/-- Model of `threshold = connectionWeights[topConnections - 1]?.absWeight || 0`:
the magnitude of the k-th ranked connection, or 0 when index k−1 is out of
range (`||` also maps a 0 magnitude to the same value 0). -/
def connThreshold (sorted : List Conn) (k : Nat) : ℚ :=
  match sorted.get? (k - 1) with
  | some c => c.absWeight
  | none => 0

/-- The drawn connections: the loop walks ranked indices `0 ≤ i < k` and
breaks as soon as `conn.absWeight < threshold * 0.5`. -/
def drawnConnections (sorted : List Conn) (k : Nat) (thr : ℚ) : List Conn :=
  (sorted.take k).takeWhile (fun c => !decide (c.absWeight < thr * (1/2)))

/-- The full edge-selection pipeline of `draw` for one adjacent layer
pair: collect, sort, count, threshold, draw with early stop. -/
def drawLayerPair (weightData : List ℚ)
    (fromLayerLen fromNodes toLayerLen toNodes : Nat) : List Conn :=
  let conns := connectionWeights weightData fromLayerLen fromNodes toLayerLen toNodes
  let sorted := sortConnections conns
  let k := topConnections conns fromLayerLen toLayerLen
  drawnConnections sorted k (connThreshold sorted k)

/-! ## An explicit-store rendering of the fusion call

tf.js tensors live in a store; `getWeights` reads them, the fused tensors
are freshly allocated (`tf.tidy(() => w1.add(w2).div(2))` creates new
tensors), and `setWeights` installs them on the freshly created `merged`
network.  `averageWeightsAlloc` makes that explicit: the store is the
list of live networks' parameter sets, the call only reads the two
existing entries and appends a new one. -/
def averageWeightsAlloc (store : List (List (List ℚ))) (i1 i2 : Nat) :
    List (List (List ℚ)) × Nat :=
  let weights1 := store.getD i1 []
  let weights2 := store.getD i2 []
  (store ++ [averageWeights weights1 weights2], store.length)

/-- The addition EpochStat appended at 0-based epoch counter `e`. -/
def addStat (o : FitOracle) (e : Nat) : NetworkStats :=
  { epoch := e + 1, loss := o.addLoss e, accuracy := o.addAcc e }

/-- The multiplication EpochStat appended at 0-based epoch counter `e`. -/
def multStat (o : FitOracle) (e : Nat) : NetworkStats :=
  { epoch := e + 1, loss := o.multLoss e, accuracy := o.multAcc e }

/-- The merged-network EpochStat appended at 0-based epoch counter `e`. -/
def mergedStat (o : FitOracle) (e : Nat) : NetworkStats :=
  { epoch := e + 1, loss := o.divLoss e, accuracy := o.divAcc e,
    testLoss := some (o.divLoss e), testAccuracy := some (o.divAcc e) }

/-- The stats state after `e` fully completed epochs. -/
def completedStats (o : FitOracle) (e : Nat) : TrainState :=
  { additionStats := (List.range e).map (addStat o),
    multiplicationStats := (List.range e).map (multStat o),
    mergedStats := (List.range e).map (mergedStat o) }

/-- A history is well indexed when the record at 0-based position i
carries epoch number i + 1: positions 1, 2, 3, … with no gaps or
duplicates. -/
def wellIndexed (l : List NetworkStats) : Prop :=
  ∀ i x, l.get? i = some x → x.epoch = i + 1

/-- An oracle on which every fit/predict call succeeds (all reported
numbers 0). -/
def allOkOracle : FitOracle where
  addFitOk := fun _ => true
  addPredOk := fun _ => true
  multFitOk := fun _ => true
  multPredOk := fun _ => true
  divPredOk := fun _ => true
  addLoss := fun _ => 0
  addAcc := fun _ => 0
  multLoss := fun _ => 0
  multAcc := fun _ => 0
  divLoss := fun _ => 0
  divAcc := fun _ => 0

/-- An oracle on which the multiplication `fit` call fails at every
epoch; the addition fit/predict of the same epoch still succeed. -/
def multFitFailsOracle : FitOracle :=
  { allOkOracle with multFitOk := fun _ => false }


/-! ## Theorems -/

/-- Membership in the nested-loop pattern shared by the three dataset
generators. -/
theorem mem_range_flatMap_map {γ : Type} (n m : Nat) (g : Nat → Nat → γ)
    (x : γ) :
    (x ∈ (List.range n).flatMap (fun a => (List.range m).map (g a)) ↔
      ∃ a < n, ∃ b < m, x = g a b) := by
  constructor
  · intro hx
    obtain ⟨a, ha, hx⟩ := List.mem_flatMap.mp hx
    obtain ⟨b, hb, hgb⟩ := List.mem_map.mp hx
    exact ⟨a, List.mem_range.mp ha, b, List.mem_range.mp hb, hgb.symm⟩
  · rintro ⟨a, ha, b, hb, rfl⟩
    exact List.mem_flatMap.mpr ⟨a, List.mem_range.mpr ha,
      List.mem_map.mpr ⟨b, List.mem_range.mpr hb, rfl⟩⟩

/-- Length of the nested-loop pattern shared by the three dataset
generators. -/
theorem length_range_flatMap_map {γ : Type} (m : Nat) (g : Nat → Nat → γ) :
    ∀ n, ((List.range n).flatMap (fun a => (List.range m).map (g a))).length
      = n * m := by
  intro n
  induction n with
  | zero => simp
  | succ n ih =>
    rw [List.range_succ, List.flatMap_append, List.length_append, ih]
    simp [Nat.succ_mul]

/-- The addition inputs are exactly the pairs of naturals below 10. -/
theorem mem_additionInputs (p : ℚ × ℚ) :
    p ∈ generateAdditionData.1 ↔
      ∃ a : ℕ, a < 10 ∧ ∃ b : ℕ, b < 10 ∧ p = ((a : ℚ), (b : ℚ)) := by
  show p ∈ List.map Prod.fst _ ↔ _
  rw [List.mem_map]
  constructor
  · rintro ⟨r, hr, rfl⟩
    obtain ⟨a, ha, b, hb, rfl⟩ := (mem_range_flatMap_map 10 10 _ r).mp hr
    exact ⟨a, ha, b, hb, rfl⟩
  · rintro ⟨a, ha, b, hb, rfl⟩
    exact ⟨_, (mem_range_flatMap_map 10 10 _ _).mpr ⟨a, ha, b, hb, rfl⟩, rfl⟩

/-- The multiplication inputs are exactly the pairs of naturals below 10. -/
theorem mem_multiplicationInputs (p : ℚ × ℚ) :
    p ∈ generateMultiplicationData.1 ↔
      ∃ a : ℕ, a < 10 ∧ ∃ b : ℕ, b < 10 ∧ p = ((a : ℚ), (b : ℚ)) := by
  show p ∈ List.map Prod.fst _ ↔ _
  rw [List.mem_map]
  constructor
  · rintro ⟨r, hr, rfl⟩
    obtain ⟨a, ha, b, hb, rfl⟩ := (mem_range_flatMap_map 10 10 _ r).mp hr
    exact ⟨a, ha, b, hb, rfl⟩
  · rintro ⟨a, ha, b, hb, rfl⟩
    exact ⟨_, (mem_range_flatMap_map 10 10 _ _).mpr ⟨a, ha, b, hb, rfl⟩, rfl⟩

/-- The division inputs are exactly the shifted pairs (i+1, j+1) with
i, j below 9, i.e. all pairs of naturals in [1, 9]. -/
theorem mem_divisionInputs (p : ℚ × ℚ) :
    p ∈ generateDivisionData.1 ↔
      ∃ i : ℕ, i < 9 ∧ ∃ j : ℕ, j < 9 ∧ p = ((i : ℚ) + 1, (j : ℚ) + 1) := by
  show p ∈ List.map Prod.fst _ ↔ _
  rw [List.mem_map]
  constructor
  · rintro ⟨r, hr, rfl⟩
    obtain ⟨i, hi, j, hj, rfl⟩ := (mem_range_flatMap_map 9 9 _ r).mp hr
    exact ⟨i, hi, j, hj, rfl⟩
  · rintro ⟨i, hi, j, hj, rfl⟩
    exact ⟨_, (mem_range_flatMap_map 9 9 _ _).mpr ⟨i, hi, j, hj, rfl⟩, rfl⟩

/-- C8: the addition and multiplication datasets each contain exactly 100
records — all pairs (a, b) with a, b in [0,9] — the division dataset
contains exactly 81 records — all pairs (a, b) with a, b in [1,9] — and
no division record has a zero second component. -/
theorem dataset_shapes :
    generateAdditionData.1.length = 100 ∧
    generateMultiplicationData.1.length = 100 ∧
    generateDivisionData.1.length = 81 ∧
    (∀ p : ℚ × ℚ, p ∈ generateAdditionData.1 ↔
      ∃ a : ℕ, a < 10 ∧ ∃ b : ℕ, b < 10 ∧ p = ((a : ℚ), (b : ℚ))) ∧
    (∀ p : ℚ × ℚ, p ∈ generateMultiplicationData.1 ↔
      ∃ a : ℕ, a < 10 ∧ ∃ b : ℕ, b < 10 ∧ p = ((a : ℚ), (b : ℚ))) ∧
    (∀ p : ℚ × ℚ, p ∈ generateDivisionData.1 ↔
      ∃ i : ℕ, i < 9 ∧ ∃ j : ℕ, j < 9 ∧ p = ((i : ℚ) + 1, (j : ℚ) + 1)) ∧
    (∀ p ∈ generateDivisionData.1, p.2 ≠ 0) := by
  refine ⟨?_, ?_, ?_, mem_additionInputs, mem_multiplicationInputs,
    mem_divisionInputs, ?_⟩
  · show (List.map Prod.fst _).length = 100
    rw [List.length_map, length_range_flatMap_map]
  · show (List.map Prod.fst _).length = 100
    rw [List.length_map, length_range_flatMap_map]
  · show (List.map Prod.fst _).length = 81
    rw [List.length_map, length_range_flatMap_map]
  · intro p hp
    obtain ⟨i, _, j, _, rfl⟩ := (mem_divisionInputs p).mp hp
    show ((j : ℚ) + 1) ≠ 0
    positivity

/-- C1: at every parameter tensor position, the fused network's value is
the arithmetic mean of the two source networks' values at that
position. -/
theorem averageWeights_is_mean (weights1 weights2 : List (List ℚ))
    (hlen : weights1.length = weights2.length)
    (htens : ∀ i < weights1.length,
      (weights1.getD i []).length = (weights2.getD i []).length)
    (i j : Nat) (hi : i < weights1.length)
    (hj : j < (weights1.getD i []).length) :
    ((averageWeights weights1 weights2).getD i []).getD j 0 =
      ((weights1.getD i []).getD j 0 + (weights2.getD i []).getD j 0) / 2 := by
  have hi2 : i < weights2.length := hlen ▸ hi
  have hj2 : j < (weights2.getD i []).length := htens i hi ▸ hj
  have hlen1 : i < (averageWeights weights1 weights2).length := by
    simpa [averageWeights, List.length_zipWith, hlen] using hi
  rw [List.getD_eq_getElem _ _ hlen1]
  rw [List.getD_eq_getElem _ _ hi, List.getD_eq_getElem _ _ hi2] at *
  simp only [averageWeights, List.getElem_zipWith]
  have hj' : j < (tensorDiv2 (tensorAdd weights1[i] weights2[i])).length := by
    simp only [tensorDiv2, tensorAdd, List.length_map, List.length_zipWith,
      lt_min_iff]
    exact ⟨hj, hj2⟩
  rw [List.getD_eq_getElem _ _ hj', List.getD_eq_getElem _ _ hj,
    List.getD_eq_getElem _ _ hj2]
  simp [tensorDiv2, tensorAdd, List.getElem_zipWith, div_eq_mul_inv]

/-- Witness for C1 at concrete networks [[2, 4], [6]] and [[6, 10], [8]]:
position (0, 1) of the fusion is (4 + 10) / 2 = 7. -/
theorem averageWeights_is_mean_witness :
    ((averageWeights [[2, 4], [6]] [[6, 10], [8]]).getD 0 []).getD 1 0 = 7 := by
  have h := averageWeights_is_mean [[2, 4], [6]] [[6, 10], [8]]
    (by decide) (by decide) 0 1 (by decide) (by decide)
  rw [h]
  norm_num

/-- C9: fusing does not mutate the inputs: every network already in the
store (in particular the two source networks) is unchanged by
`averageWeightsAlloc`, and the returned index names a freshly appended
network holding the averaged parameters. -/
theorem averageWeights_no_mutation (store : List (List (List ℚ))) (i1 i2 : Nat) :
    (∀ j < store.length,
      (averageWeightsAlloc store i1 i2).1.getD j [] = store.getD j []) ∧
    (averageWeightsAlloc store i1 i2).2 = store.length ∧
    (averageWeightsAlloc store i1 i2).1.getD (averageWeightsAlloc store i1 i2).2 [] =
      averageWeights (store.getD i1 []) (store.getD i2 []) ∧
    (averageWeightsAlloc store i1 i2).1.length = store.length + 1 := by
  refine ⟨fun j hj => List.getD_append _ _ _ _ hj, rfl, ?_, by simp [averageWeightsAlloc]⟩
  rw [show (averageWeightsAlloc store i1 i2).2 = store.length from rfl]
  rw [show (averageWeightsAlloc store i1 i2).1 =
    store ++ [averageWeights (store.getD i1 []) (store.getD i2 [])] from rfl]
  rw [List.getD_append_right _ _ _ _ (le_refl _)]
  simp

/-- Rewriting `zipWith` as `map` over `zip`. -/
theorem zipWith_as_map_zip {α β γ : Type} (f : α → β → γ) :
    ∀ (l1 : List α) (l2 : List β),
      List.zipWith f l1 l2 = (l1.zip l2).map (fun p => f p.1 p.2)
  | [], _ => by simp
  | _ :: _, [] => by simp
  | a :: l1, b :: l2 => by
    simp [List.zip_cons_cons, zipWith_as_map_zip f l1 l2]

/-- The numerator of `calculateAccuracy` as a count over the zipped
record list. -/
theorem calculateAccuracy_eq_countP (predictions targets : List ℚ) :
    calculateAccuracy predictions targets =
      (((predictions.zip targets).countP
        (fun pt => decide (|pt.1 - pt.2| ≤ 1/2))) : ℚ) /
        (predictions.length : ℚ) := by
  unfold calculateAccuracy
  simp only []
  rw [← List.countP_eq_length_filter, zipWith_as_map_zip, List.countP_map]
  rfl

/-- C2: `calculateAccuracy` is the fraction of records whose absolute
prediction error is at most 0.5; it lies in [0, 1]; it is exactly 1 when
every prediction matches its target and exactly 0 when every absolute
error exceeds 0.5.  `hlen` and `hpos` say the prediction/target pair is
well formed and non-empty (as every call site's datasets are). -/
theorem calculateAccuracy_props (predictions targets : List ℚ)
    (hlen : targets.length = predictions.length)
    (hpos : 0 < predictions.length) :
    calculateAccuracy predictions targets =
      (((predictions.zip targets).countP
        (fun pt => decide (|pt.1 - pt.2| ≤ 1/2))) : ℚ) /
        (predictions.length : ℚ) ∧
    0 ≤ calculateAccuracy predictions targets ∧
    calculateAccuracy predictions targets ≤ 1 ∧
    ((∀ pt ∈ predictions.zip targets, pt.1 = pt.2) →
      calculateAccuracy predictions targets = 1) ∧
    ((∀ pt ∈ predictions.zip targets, 1/2 < |pt.1 - pt.2|) →
      calculateAccuracy predictions targets = 0) := by
  have hq : (0 : ℚ) < (predictions.length : ℚ) := by exact_mod_cast hpos
  refine ⟨calculateAccuracy_eq_countP predictions targets, ?_, ?_, ?_, ?_⟩
  · rw [calculateAccuracy_eq_countP]
    positivity
  · rw [calculateAccuracy_eq_countP]
    rw [div_le_one hq]
    have h1 : (predictions.zip targets).countP
        (fun pt => decide (|pt.1 - pt.2| ≤ 1/2)) ≤
        (predictions.zip targets).length := List.countP_le_length _
    have h2 : (predictions.zip targets).length ≤ predictions.length := by
      rw [List.length_zip]
      exact min_le_left _ _
    exact_mod_cast le_trans h1 h2
  · intro hall
    rw [calculateAccuracy_eq_countP]
    have hcnt : (predictions.zip targets).countP
        (fun pt => decide (|pt.1 - pt.2| ≤ 1/2)) =
        (predictions.zip targets).length := by
      rw [List.countP_eq_length]
      intro pt hpt
      have := hall pt hpt
      simp [this]
    rw [hcnt, List.length_zip, hlen, min_self]
    exact div_self (ne_of_gt hq)
  · intro hall
    rw [calculateAccuracy_eq_countP]
    have hcnt : (predictions.zip targets).countP
        (fun pt => decide (|pt.1 - pt.2| ≤ 1/2)) = 0 := by
      rw [List.countP_eq_zero]
      intro pt hpt
      have := hall pt hpt
      simp only [decide_eq_true_eq]
      intro hle
      exact absurd this (not_lt.mpr hle)
    rw [hcnt]
    simp

/-- Witness for C2 at predictions [0, 1] against targets [0, 2]: the
accuracy is within [0, 1]. -/
theorem calculateAccuracy_props_witness :
    0 ≤ calculateAccuracy [0, 1] [0, 2] ∧
      calculateAccuracy [0, 1] [0, 2] ≤ 1 := by
  have h := calculateAccuracy_props [0, 1] [0, 2] (by decide) (by decide)
  exact ⟨h.2.1, h.2.2.1⟩

/-- C4 (amended): the simulated activation 0.3 + 0.4·sin(phase) is a
scalar in [-1/10, 7/10] for every layer index, node index and time — not
in [0, 1]: the sine term can pull it below zero.  (The `draw` routine
later clamps the read value into [0, 1] before rendering, but the
generated ActivationFrame scalar itself is not confined to [0, 1].) -/
theorem generateActivation_range (layerIdx nodeIdx : Nat) (time : ℝ) :
    -(1/10) ≤ generateActivation layerIdx nodeIdx time ∧
      generateActivation layerIdx nodeIdx time ≤ 7/10 := by
  unfold generateActivation
  have h1 := Real.neg_one_le_sin
    (jsMod (time * 0.5 + (layerIdx : ℝ) * 0.3 + (nodeIdx : ℝ) * 0.1)
      (Real.pi * 2))
  have h2 := Real.sin_le_one
    (jsMod (time * 0.5 + (layerIdx : ℝ) * 0.3 + (nodeIdx : ℝ) * 0.1)
      (Real.pi * 2))
  constructor <;> nlinarith

/-- Counterexample to C4 as stated: at layer 0, node 0, time 3π seconds,
the phase is 3π/2, the sine is -1, and the activation equals -1/10, which
is not in [0, 1]. -/
theorem generateActivation_counterexample :
    generateActivation 0 0 (3 * Real.pi) = -(1/10) ∧
      ¬(0 ≤ generateActivation 0 0 (3 * Real.pi) ∧
        generateActivation 0 0 (3 * Real.pi) ≤ 1) := by
  have hpi := Real.pi_pos
  have harg : 3 * Real.pi * 0.5 + ((0 : Nat) : ℝ) * 0.3 +
      ((0 : Nat) : ℝ) * 0.1 = Real.pi + Real.pi / 2 := by
    push_cast
    ring
  have hdiv : (Real.pi + Real.pi / 2) / (Real.pi * 2) = 3 / 4 := by
    field_simp
    ring
  have hfloor : ⌊(Real.pi + Real.pi / 2) / (Real.pi * 2)⌋ = 0 := by
    rw [hdiv]
    rw [Int.floor_eq_zero_iff]
    constructor <;> norm_num
  have hmod : jsMod (Real.pi + Real.pi / 2) (Real.pi * 2) =
      Real.pi + Real.pi / 2 := by
    unfold jsMod
    rw [hfloor]
    push_cast
    ring
  have hsin : Real.sin (Real.pi + Real.pi / 2) = -1 := by
    rw [Real.sin_add, Real.sin_pi, Real.cos_pi, Real.sin_pi_div_two,
      Real.cos_pi_div_two]
    ring
  have hval : generateActivation 0 0 (3 * Real.pi) = -(1/10) := by
    unfold generateActivation
    rw [harg, hmod]
    show 0.3 + 0.4 * Real.sin (Real.pi + Real.pi / 2) = -(1/10)
    rw [hsin]
    norm_num
  exact ⟨hval, by rw [hval]; intro h; have := h.1; norm_num at this⟩

/-! ### Edge-selection helper lemmas -/

/-- When the weight-matrix shape matches the layout columns (as the fixed
architecture guarantees), the candidate list has one entry per
(source, target) pair. -/
theorem connectionWeights_length (weightData : List ℚ) (fl tl : Nat) :
    (connectionWeights weightData fl fl tl tl).length = fl * tl := by
  unfold connectionWeights
  rw [Nat.min_self, Nat.min_self, length_range_flatMap_map]

/-- The selection count never exceeds the number of candidates, provided
both layers have a node and the shape matches the layout. -/
theorem topConnections_le (weightData : List ℚ) (fl tl : Nat)
    (_hs : 1 ≤ fl) (htl : 1 ≤ tl) :
    topConnections (connectionWeights weightData fl fl tl tl) fl tl
      ≤ fl * tl := by
  unfold topConnections
  apply max_le
  · rw [connectionWeights_length, Nat.ceil_le]
    exact mul_le_of_le_one_right (Nat.cast_nonneg _) (by norm_num)
  · calc min fl tl ≤ fl := min_le_left _ _
      _ ≤ fl * tl := Nat.le_mul_of_pos_right fl (by omega)

/-- Sorting does not change membership. -/
theorem mem_sortConnections {c : Conn} {l : List Conn} :
    c ∈ sortConnections l ↔ c ∈ l :=
  (List.mergeSort_perm l connDesc).mem_iff

/-- Sorting does not change the length. -/
theorem sortConnections_length (l : List Conn) :
    (sortConnections l).length = l.length :=
  (List.mergeSort_perm l connDesc).length_eq

/-- The sorted candidate list is sorted by descending magnitude. -/
theorem sortConnections_sorted (l : List Conn) :
    List.Sorted (fun a b : Conn => b.absWeight ≤ a.absWeight)
      (sortConnections l) := by
  have hp := @List.sorted_mergeSort Conn connDesc
    (fun a b c hab hbc => by
      simp only [connDesc, decide_eq_true_eq] at *
      exact le_trans hbc hab)
    (fun a b => by
      simp only [connDesc, Bool.or_eq_true, decide_eq_true_eq]
      exact le_total b.absWeight a.absWeight)
    l
  exact hp.imp (fun h => by simpa [connDesc, decide_eq_true_eq] using h)

/-- The threshold is the magnitude of the k-th ranked connection whenever
that connection exists. -/
theorem connThreshold_get (S : List Conn) (k : Nat)
    (h1 : 1 ≤ k) (h2 : k ≤ S.length) :
    ∃ c, S.get? (k - 1) = some c ∧ connThreshold S k = c.absWeight ∧
      c ∈ S := by
  have hk : k - 1 < S.length := by omega
  refine ⟨S.get ⟨k - 1, hk⟩, List.get?_eq_get hk, ?_, List.get_mem S (k - 1) hk⟩
  unfold connThreshold
  rw [List.get?_eq_get hk]

/-- The element right after a `takeWhile` run fails the predicate. -/
theorem takeWhile_stop {α : Type} (p : α → Bool) :
    ∀ (l : List α) (x : α),
      l.get? ((l.takeWhile p).length) = some x → p x = false := by
  intro l
  induction l with
  | nil => intro x hx; simp at hx
  | cons a t ih =>
    intro x hx
    by_cases hpa : p a = true
    · rw [List.takeWhile_cons_of_pos hpa, List.length_cons,
        List.get?_cons_succ] at hx
      exact ih x hx
    · have hfa : p a = false := by simpa using hpa
      rw [List.takeWhile_cons_of_neg (by simp [hfa])] at hx
      rw [List.length_nil, List.get?_cons_zero] at hx
      cases hx
      exact hfa

/-- The element right after a `takeWhile` over a `take k` run, read off
the underlying list: the predicate fails there. -/
theorem takeWhile_take_stop {α : Type} (p : α → Bool) (S : List α) (k : Nat)
    (h : ((S.take k).takeWhile p).length < (S.take k).length) :
    ∃ x, S.get? ((S.take k).takeWhile p).length = some x ∧ p x = false := by
  have hlt : ((S.take k).takeWhile p).length < k :=
    lt_of_lt_of_le h (List.length_take_le _ _)
  have hx := List.get?_eq_get h
  exact ⟨(S.take k).get ⟨((S.take k).takeWhile p).length, h⟩,
    by rw [← List.get?_take hlt]; exact hx,
    takeWhile_stop p (S.take k) _ hx⟩


/-- C10: with at least one source and one target node (and the weight
shape matching the layout columns, as the fixed architecture guarantees),
the selection count k is at most totalConnections = sourceCount ×
targetCount, the k-th ranked connection exists, and the threshold is its
magnitude — the `|| 0` fallback for a missing k-th entry is never
taken. -/
theorem topConnections_within_available (weightData : List ℚ)
    (fromLayerLen fromNodes toLayerLen toNodes : Nat)
    (hf : fromNodes = fromLayerLen) (ht : toNodes = toLayerLen)
    (hs : 1 ≤ fromLayerLen) (htl : 1 ≤ toLayerLen) :
    topConnections
        (connectionWeights weightData fromLayerLen fromNodes toLayerLen toNodes)
        fromLayerLen toLayerLen ≤ fromLayerLen * toLayerLen ∧
    (connectionWeights weightData fromLayerLen fromNodes toLayerLen toNodes).length
      = fromLayerLen * toLayerLen ∧
    ∃ c : Conn,
      (sortConnections
          (connectionWeights weightData fromLayerLen fromNodes toLayerLen toNodes)).get?
        (topConnections
          (connectionWeights weightData fromLayerLen fromNodes toLayerLen toNodes)
          fromLayerLen toLayerLen - 1) = some c ∧
      connThreshold
        (sortConnections
          (connectionWeights weightData fromLayerLen fromNodes toLayerLen toNodes))
        (topConnections
          (connectionWeights weightData fromLayerLen fromNodes toLayerLen toNodes)
          fromLayerLen toLayerLen) = c.absWeight := by
  subst hf ht
  have hlen := connectionWeights_length weightData fromNodes toNodes
  have hk := topConnections_le weightData fromNodes toNodes hs htl
  have h1 : 1 ≤ topConnections
      (connectionWeights weightData fromNodes fromNodes toNodes toNodes)
      fromNodes toNodes := by
    have := le_max_right
      (Nat.ceil (((connectionWeights weightData fromNodes fromNodes toNodes
        toNodes).length : ℚ) * (3/10))) (min fromNodes toNodes)
    have hmin : 1 ≤ min fromNodes toNodes := le_min hs htl
    exact le_trans hmin this
  obtain ⟨c, hget, hthr, _⟩ := connThreshold_get
    (sortConnections (connectionWeights weightData fromNodes fromNodes
      toNodes toNodes))
    (topConnections (connectionWeights weightData fromNodes fromNodes
      toNodes toNodes) fromNodes toNodes)
    h1 (by rw [sortConnections_length, hlen]; exact hk)
  exact ⟨hk, hlen, c, hget, hthr⟩

/-- Witness for C10 at the concrete 2×2 weight matrix [1, 2, 3, 4]:
k is within the 4 available connections. -/
theorem topConnections_within_available_witness :
    topConnections (connectionWeights [1, 2, 3, 4] 2 2 2 2) 2 2 ≤ 2 * 2 :=
  (topConnections_within_available [1, 2, 3, 4] 2 2 2 2 rfl rfl
    (by decide) (by decide)).1

/-- Every candidate connection's magnitude field is the absolute value of
its weight field, and with all-equal data magnitudes it equals that
common magnitude. -/
theorem mem_connectionWeights_absWeight (weightData : List ℚ)
    (fl tl : Nat) (m : ℚ)
    (hdata : weightData.length = fl * tl)
    (hmag : ∀ w ∈ weightData, |w| = m) :
    ∀ c ∈ connectionWeights weightData fl fl tl tl,
      c.absWeight = m ∧ 0 ≤ c.absWeight := by
  intro c hc
  unfold connectionWeights at hc
  obtain ⟨fi, hfi, ti, hti, rfl⟩ := (mem_range_flatMap_map _ _ _ c).mp hc
  rw [Nat.min_self] at hfi
  rw [Nat.min_self] at hti
  have hidx : fi * tl + ti < weightData.length := by
    rw [hdata]
    calc fi * tl + ti < fi * tl + tl := by omega
      _ = (fi + 1) * tl := by ring
      _ ≤ fl * tl := Nat.mul_le_mul_right tl (by omega)
  refine ⟨?_, abs_nonneg _⟩
  show |weightData.getD (fi * tl + ti) 0| = m
  rw [List.getD_eq_getElem _ _ hidx]
  exact hmag _ (List.getElem_mem hidx)

/-- C5: the selection count is k = max(ceil(0.3 × totalConnections),
min(sourceCount, targetCount)), and for a weight matrix whose entries all
have equal magnitude the early-stop rule never fires, so exactly k — and
hence at least min(sourceCount, targetCount) — connections are drawn. -/
theorem equal_magnitudes_floor_guarantee (weightData : List ℚ)
    (fromLayerLen fromNodes toLayerLen toNodes : Nat) (m : ℚ)
    (hf : fromNodes = fromLayerLen) (ht : toNodes = toLayerLen)
    (hs : 1 ≤ fromLayerLen) (htl : 1 ≤ toLayerLen)
    (hdata : weightData.length = fromNodes * toNodes)
    (hmag : ∀ w ∈ weightData, |w| = m) :
    topConnections
        (connectionWeights weightData fromLayerLen fromNodes toLayerLen toNodes)
        fromLayerLen toLayerLen =
      max (Nat.ceil
        (((connectionWeights weightData fromLayerLen fromNodes toLayerLen
          toNodes).length : ℚ) * (3/10)))
        (min fromLayerLen toLayerLen) ∧
    (drawLayerPair weightData fromLayerLen fromNodes toLayerLen toNodes).length =
      topConnections
        (connectionWeights weightData fromLayerLen fromNodes toLayerLen toNodes)
        fromLayerLen toLayerLen ∧
    min fromLayerLen toLayerLen ≤
      (drawLayerPair weightData fromLayerLen fromNodes toLayerLen toNodes).length := by
  subst hf ht
  refine ⟨rfl, ?_, ?_⟩
  on_goal 2 => skip
  all_goals
    have hlen := connectionWeights_length weightData fromNodes toNodes
    have habs := mem_connectionWeights_absWeight weightData fromNodes toNodes
      m hdata hmag
    have hmemS : ∀ c ∈ sortConnections
        (connectionWeights weightData fromNodes fromNodes toNodes toNodes),
        c.absWeight = m ∧ 0 ≤ c.absWeight :=
      fun c hc => habs c (mem_sortConnections.mp hc)
    have hSlen : (sortConnections
        (connectionWeights weightData fromNodes fromNodes toNodes
          toNodes)).length = fromNodes * toNodes := by
      rw [sortConnections_length, hlen]
    have hk_le := topConnections_le weightData fromNodes toNodes hs htl
    have hk_ge : min fromNodes toNodes ≤ topConnections
        (connectionWeights weightData fromNodes fromNodes toNodes toNodes)
        fromNodes toNodes := le_max_right _ _
    have hk1 : 1 ≤ topConnections
        (connectionWeights weightData fromNodes fromNodes toNodes toNodes)
        fromNodes toNodes := le_trans (le_min hs htl) hk_ge
    obtain ⟨c0, hget, hthr, hc0S⟩ := connThreshold_get
      (sortConnections
        (connectionWeights weightData fromNodes fromNodes toNodes toNodes))
      (topConnections
        (connectionWeights weightData fromNodes fromNodes toNodes toNodes)
        fromNodes toNodes)
      hk1 (by rw [hSlen]; exact hk_le)
    have hthr_m : connThreshold
        (sortConnections
          (connectionWeights weightData fromNodes fromNodes toNodes toNodes))
        (topConnections
          (connectionWeights weightData fromNodes fromNodes toNodes toNodes)
          fromNodes toNodes) = m := by
      rw [hthr]
      exact (hmemS c0 hc0S).1
    have hm0 : 0 ≤ m := by
      rw [← (hmemS c0 hc0S).1]
      exact (hmemS c0 hc0S).2
    have hdrawn : drawLayerPair weightData fromNodes fromNodes toNodes toNodes =
        (sortConnections
          (connectionWeights weightData fromNodes fromNodes toNodes
            toNodes)).take
          (topConnections
            (connectionWeights weightData fromNodes fromNodes toNodes toNodes)
            fromNodes toNodes) := by
      show drawnConnections _ _ _ = _
      unfold drawnConnections
      rw [hthr_m, List.takeWhile_eq_self_iff.mpr]
      intro c hc
      have hcS := List.mem_of_mem_take hc
      rw [(hmemS c hcS).1]
      simp only [Bool.not_eq_true', decide_eq_false_iff_not, not_lt]
      linarith
    have hdlen : (drawLayerPair weightData fromNodes fromNodes toNodes
        toNodes).length =
        topConnections
          (connectionWeights weightData fromNodes fromNodes toNodes toNodes)
          fromNodes toNodes := by
      rw [hdrawn, List.length_take, hSlen]
      exact min_eq_left hk_le
  · exact hdlen
  · rw [hdlen]
    exact hk_ge

/-- Witness for C5 at the all-ones 2×2 weight matrix: all four
magnitudes are 1, so at least min(2, 2) = 2 connections are drawn. -/
theorem equal_magnitudes_floor_guarantee_witness :
    min 2 2 ≤ (drawLayerPair [1, 1, 1, 1] 2 2 2 2).length :=
  (equal_magnitudes_floor_guarantee [1, 1, 1, 1] 2 2 2 2 1 rfl rfl
    (by decide) (by decide) (by decide) (by norm_num)).2.2

/-- Behaviour of the draw loop on any sorted candidate list: the drawn
list is sorted descending, at most k long, every drawn magnitude is at
least half the threshold, and when fewer than min(k, total) are drawn the
very next ranked connection is below half the threshold. -/
theorem drawnConnections_spec (S : List Conn) (k : Nat) (thr : ℚ)
    (hS : List.Sorted (fun a b : Conn => b.absWeight ≤ a.absWeight) S) :
    List.Sorted (fun a b : Conn => b.absWeight ≤ a.absWeight)
      (drawnConnections S k thr) ∧
    (drawnConnections S k thr).length ≤ k ∧
    (∀ c ∈ drawnConnections S k thr, ¬(c.absWeight < thr * (1/2))) ∧
    ((drawnConnections S k thr).length < (S.take k).length →
      ∃ x, S.get? (drawnConnections S k thr).length = some x ∧
        x.absWeight < thr * (1/2)) := by
  unfold drawnConnections
  refine ⟨?_, ?_, ?_, ?_⟩
  · exact List.Pairwise.sublist
      ((List.takeWhile_sublist _).trans (List.take_sublist _ _)) hS
  · calc ((S.take k).takeWhile
        (fun c => !decide (c.absWeight < thr * (1/2)))).length
        ≤ (S.take k).length := (List.takeWhile_sublist _).length_le
      _ ≤ k := List.length_take_le _ _
  · intro c hc
    have := List.mem_takeWhile_imp hc
    simpa only [Bool.not_eq_true', decide_eq_false_iff_not] using this
  · intro h
    obtain ⟨x, h1, h2⟩ := takeWhile_take_stop _ S k h
    exact ⟨x, h1, by simpa using h2⟩

/-- C6: the drawn connections come in descending magnitude order, and
drawing stops as soon as either k connections are drawn or the next
ranked connection's magnitude falls below half the threshold, whichever
comes first. -/
theorem connections_ranked_early_stop (conns : List Conn)
    (fromLayerLen toLayerLen : Nat) :
    List.Sorted (fun a b : Conn => b.absWeight ≤ a.absWeight)
      (drawnConnections (sortConnections conns)
        (topConnections conns fromLayerLen toLayerLen)
        (connThreshold (sortConnections conns)
          (topConnections conns fromLayerLen toLayerLen))) ∧
    (drawnConnections (sortConnections conns)
        (topConnections conns fromLayerLen toLayerLen)
        (connThreshold (sortConnections conns)
          (topConnections conns fromLayerLen toLayerLen))).length ≤
      topConnections conns fromLayerLen toLayerLen ∧
    (∀ c ∈ drawnConnections (sortConnections conns)
        (topConnections conns fromLayerLen toLayerLen)
        (connThreshold (sortConnections conns)
          (topConnections conns fromLayerLen toLayerLen)),
      ¬(c.absWeight < connThreshold (sortConnections conns)
          (topConnections conns fromLayerLen toLayerLen) * (1/2))) ∧
    ((drawnConnections (sortConnections conns)
        (topConnections conns fromLayerLen toLayerLen)
        (connThreshold (sortConnections conns)
          (topConnections conns fromLayerLen toLayerLen))).length <
        ((sortConnections conns).take
          (topConnections conns fromLayerLen toLayerLen)).length →
      ∃ x, (sortConnections conns).get?
          (drawnConnections (sortConnections conns)
            (topConnections conns fromLayerLen toLayerLen)
            (connThreshold (sortConnections conns)
              (topConnections conns fromLayerLen toLayerLen))).length = some x ∧
        x.absWeight < connThreshold (sortConnections conns)
          (topConnections conns fromLayerLen toLayerLen) * (1/2)) :=
  drawnConnections_spec (sortConnections conns)
    (topConnections conns fromLayerLen toLayerLen)
    (connThreshold (sortConnections conns)
      (topConnections conns fromLayerLen toLayerLen))
    (sortConnections_sorted conns)

/-! ### Trainer helper lemmas -/

theorem completedStats_zero (o : FitOracle) :
    completedStats o 0 = emptyTrainState := rfl

theorem runEpoch_all_ok (o : FitOracle) (e : Nat) (s : TrainState)
    (h : epochAllOk o e = true) :
    runEpoch o e s = .ok
      { additionStats := s.additionStats ++ [addStat o e],
        multiplicationStats := s.multiplicationStats ++ [multStat o e],
        mergedStats := s.mergedStats ++ [mergedStat o e] } := by
  unfold epochAllOk at h
  simp only [Bool.and_eq_true] at h
  obtain ⟨⟨⟨⟨h1, h2⟩, h3⟩, h4⟩, h5⟩ := h
  unfold runEpoch
  rw [h1, h2, h3, h4, h5]
  rfl

theorem runEpoch_completed (o : FitOracle) (e : Nat)
    (h : epochAllOk o e = true) :
    runEpoch o e (completedStats o e) = .ok (completedStats o (e + 1)) := by
  rw [runEpoch_all_ok o e _ h]
  unfold completedStats
  simp [List.range_succ, addStat, multStat, mergedStat]

theorem runEpoch_fail (o : FitOracle) (e : Nat) (s : TrainState)
    (h : epochAllOk o e = false) :
    ∃ s', runEpoch o e s = .error s' ∧
      (s'.additionStats = s.additionStats ∨
        s'.additionStats = s.additionStats ++ [addStat o e]) ∧
      (s'.multiplicationStats = s.multiplicationStats ∨
        s'.multiplicationStats = s.multiplicationStats ++ [multStat o e]) ∧
      s'.mergedStats = s.mergedStats := by
  cases hc1 : (o.addFitOk e && o.addPredOk e) with
  | false =>
    refine ⟨s, ?_, Or.inl rfl, Or.inl rfl, rfl⟩
    unfold runEpoch
    rw [hc1]
    rfl
  | true =>
    cases hc2 : (o.multFitOk e && o.multPredOk e) with
    | false =>
      refine ⟨{ s with additionStats := s.additionStats ++ [addStat o e] },
        ?_, Or.inr rfl, Or.inl rfl, rfl⟩
      unfold runEpoch
      rw [hc1, hc2]
      rfl
    | true =>
      cases hc3 : o.divPredOk e with
      | false =>
        refine ⟨{ s with
            additionStats := s.additionStats ++ [addStat o e],
            multiplicationStats :=
              s.multiplicationStats ++ [multStat o e] },
          ?_, Or.inr rfl, Or.inr rfl, rfl⟩
        unfold runEpoch
        rw [hc1, hc2, hc3]
        rfl
      | true =>
        exfalso
        simp only [Bool.and_eq_true] at hc1 hc2
        rw [epochAllOk, hc1.1, hc1.2, hc2.1, hc2.2, hc3] at h
        simp at h

theorem runSessionAux_complete (o : FitOracle) :
    ∀ (n e : Nat), (∀ i, i < n → epochAllOk o (e + i) = true) →
      runSessionAux o n e (completedStats o e) =
        (completedStats o (e + n), true) := by
  intro n
  induction n with
  | zero => intro e _; rfl
  | succ n ih =>
    intro e h
    have h0 : epochAllOk o e = true := by simpa using h 0 (by omega)
    show (match runEpoch o e (completedStats o e) with
      | .ok s' => runSessionAux o n (e + 1) s'
      | .error s' => (s', false)) = _
    rw [runEpoch_completed o e h0]
    show runSessionAux o n (e + 1) (completedStats o (e + 1)) = _
    rw [ih (e + 1) (fun i hi => by
      have := h (i + 1) (by omega)
      rwa [show e + (i + 1) = e + 1 + i by omega] at this)]
    rw [show e + 1 + n = e + (n + 1) by omega]

theorem session_complete (o : FitOracle) (epochs : Nat)
    (h : ∀ i, i < epochs → epochAllOk o i = true) :
    runSessionAux o epochs 0 emptyTrainState =
      (completedStats o epochs, true) := by
  have hc := runSessionAux_complete o epochs 0 (fun i hi => by
    simpa using h i hi)
  rw [completedStats_zero] at hc
  simpa using hc

theorem runSessionAux_reach (o : FitOracle) :
    ∀ (d m e : Nat), (∀ i, i < d → epochAllOk o (e + i) = true) →
      runSessionAux o (d + m) e (completedStats o e) =
        runSessionAux o m (e + d) (completedStats o (e + d)) := by
  intro d
  induction d with
  | zero => intro m e _; rw [Nat.zero_add, Nat.add_zero]
  | succ d ih =>
    intro m e h
    have h0 : epochAllOk o e = true := by simpa using h 0 (by omega)
    rw [show d + 1 + m = (d + m) + 1 from by omega]
    show (match runEpoch o e (completedStats o e) with
      | .ok s' => runSessionAux o (d + m) (e + 1) s'
      | .error s' => (s', false)) = _
    rw [runEpoch_completed o e h0]
    show runSessionAux o (d + m) (e + 1) (completedStats o (e + 1)) = _
    rw [ih m (e + 1) (fun i hi => by
      have := h (i + 1) (by omega)
      rwa [show e + (i + 1) = e + 1 + i by omega] at this)]
    rw [show e + 1 + d = e + (d + 1) by omega]

theorem wellIndexed_append (l : List NetworkStats) (x : NetworkStats)
    (hl : wellIndexed l) (hx : x.epoch = l.length + 1) :
    wellIndexed (l ++ [x]) := by
  intro i y hy
  by_cases hi : i < l.length
  · rw [List.get?_append hi] at hy
    exact hl i y hy
  · obtain ⟨hb, _⟩ := List.get?_eq_some.mp hy
    rw [List.length_append, List.length_singleton] at hb
    have hie : i = l.length := by omega
    subst hie
    rw [List.get?_append_right (le_refl _), Nat.sub_self] at hy
    rw [List.get?_cons_zero] at hy
    cases hy
    exact hx

theorem wellIndexed_map_range (f : Nat → NetworkStats)
    (hf : ∀ i, (f i).epoch = i + 1) (e : Nat) :
    wellIndexed ((List.range e).map f) := by
  intro i x hx
  obtain ⟨hb, _⟩ := List.get?_eq_some.mp hx
  rw [List.length_map, List.length_range] at hb
  rw [List.get?_map, List.get?_range hb] at hx
  cases hx
  exact hf i

theorem completedStats_wellIndexed (o : FitOracle) (e : Nat) :
    wellIndexed (completedStats o e).additionStats ∧
    wellIndexed (completedStats o e).multiplicationStats ∧
    wellIndexed (completedStats o e).mergedStats :=
  ⟨wellIndexed_map_range (addStat o) (fun _ => rfl) e,
   wellIndexed_map_range (multStat o) (fun _ => rfl) e,
   wellIndexed_map_range (mergedStat o) (fun _ => rfl) e⟩

/-- Every state the session can stop in — completed or aborted — has all
three histories well indexed. -/
theorem runSessionAux_wellIndexed (o : FitOracle) :
    ∀ (n e : Nat),
      wellIndexed (runSessionAux o n e (completedStats o e)).1.additionStats ∧
      wellIndexed
        (runSessionAux o n e (completedStats o e)).1.multiplicationStats ∧
      wellIndexed (runSessionAux o n e (completedStats o e)).1.mergedStats := by
  intro n
  induction n with
  | zero => intro e; exact completedStats_wellIndexed o e
  | succ n ih =>
    intro e
    cases hok : epochAllOk o e with
    | true =>
      have hstep : runSessionAux o (n + 1) e (completedStats o e) =
          runSessionAux o n (e + 1) (completedStats o (e + 1)) := by
        show (match runEpoch o e (completedStats o e) with
          | .ok s' => runSessionAux o n (e + 1) s'
          | .error s' => (s', false)) = _
        rw [runEpoch_completed o e hok]
      rw [hstep]
      exact ih (e + 1)
    | false =>
      obtain ⟨s', herr, hadd, hmult, hmerg⟩ :=
        runEpoch_fail o e (completedStats o e) hok
      have hstep : runSessionAux o (n + 1) e (completedStats o e) =
          (s', false) := by
        show (match runEpoch o e (completedStats o e) with
          | .ok t => runSessionAux o n (e + 1) t
          | .error t => (t, false)) = _
        rw [herr]
      rw [hstep]
      obtain ⟨ha, hm, hg⟩ := completedStats_wellIndexed o e
      refine ⟨?_, ?_, ?_⟩
      · rcases hadd with h | h
        · rw [h]; exact ha
        · rw [h]
          exact wellIndexed_append _ _ ha (by simp [completedStats, addStat])
      · rcases hmult with h | h
        · rw [h]; exact hm
        · rw [h]
          exact wellIndexed_append _ _ hm (by simp [completedStats, multStat])
      · rw [hmerg]; exact hg

/-- Counterexample to C3 as stated: when the multiplication fit of epoch
1 fails, the session aborts, but the addition EpochStat of that same
failed epoch has already been appended — the in-progress epoch's partial
stats are not discarded. -/
theorem failed_epoch_partial_stat_retained :
    (trainNetworks emptyTrainState multFitFailsOracle 50).2 = false ∧
    (trainNetworks emptyTrainState multFitFailsOracle 50).1.additionStats =
      [{ epoch := 1, loss := 0, accuracy := 0 }] ∧
    (trainNetworks emptyTrainState
      multFitFailsOracle 50).1.multiplicationStats = [] ∧
    (trainNetworks emptyTrainState multFitFailsOracle 50).1.mergedStats = [] :=
  ⟨rfl, rfl, rfl, rfl⟩

/-- C3 (amended): if a fit or predict step fails at 0-based epoch `e`
after `e` fully completed epochs, the session aborts and all previously
completed epochs' stats remain intact; but stats of the failed epoch
appended before the failing step are retained rather than discarded
(only the stats after the failing step are missing; the merged stat,
appended last, never survives a failure). -/
theorem session_abort_preserves_completed (prior : TrainState)
    (o : FitOracle) (epochs e : Nat)
    (he : e < epochs)
    (hprev : ∀ i, i < e → epochAllOk o i = true)
    (hfail : epochAllOk o e = false) :
    (trainNetworks prior o epochs).2 = false ∧
    ∃ s', runEpoch o e (completedStats o e) = .error s' ∧
      (trainNetworks prior o epochs).1 = s' ∧
      s'.additionStats.take e = (completedStats o e).additionStats ∧
      s'.multiplicationStats.take e =
        (completedStats o e).multiplicationStats ∧
      s'.mergedStats = (completedStats o e).mergedStats := by
  obtain ⟨s', herr, hadd, hmult, hmerg⟩ :=
    runEpoch_fail o e (completedStats o e) hfail
  have hsession : trainNetworks prior o epochs = (s', false) := by
    show runSessionAux o epochs 0 emptyTrainState = _
    rw [show epochs = e + ((epochs - e - 1) + 1) from by omega]
    have hreach := runSessionAux_reach o e ((epochs - e - 1) + 1) 0
      (fun i hi => by simpa using hprev i hi)
    simp only [Nat.zero_add] at hreach
    rw [completedStats_zero] at hreach
    rw [hreach]
    show (match runEpoch o e (completedStats o e) with
      | .ok t => runSessionAux o (epochs - e - 1) (e + 1) t
      | .error t => (t, false)) = _
    rw [herr]
  refine ⟨by rw [hsession], s', herr, by rw [hsession], ?_, ?_, hmerg⟩
  · rcases hadd with h | h
    · rw [h]
      exact List.take_of_length_le (by simp [completedStats])
    · rw [h]
      exact List.take_left' (by simp [completedStats])
  · rcases hmult with h | h
    · rw [h]
      exact List.take_of_length_le (by simp [completedStats])
    · rw [h]
      exact List.take_left' (by simp [completedStats])

/-- Witness for C3 (amended) at the oracle whose multiplication fit
fails at epoch 1: the session aborts. -/
theorem session_abort_preserves_completed_witness :
    (trainNetworks emptyTrainState multFitFailsOracle 50).2 = false :=
  (session_abort_preserves_completed emptyTrainState multFitFailsOracle
    50 0 (by omega) (fun i hi => absurd hi (Nat.not_lt_zero i))
    (by decide)).1

/-- C7: every history the trainer can leave behind is well indexed
(epochIndex = 1-based position, no gaps or duplicates); a fully
successful 50-epoch session leaves all three histories of length 50 with
final epochIndex 50; and a new session always starts from empty
histories, whatever a previous session left behind. -/
theorem epoch_indices_correct (prior : TrainState) (o : FitOracle)
    (h50 : ∀ i, i < 50 → epochAllOk o i = true) :
    (∀ (prior2 : TrainState) (o2 : FitOracle) (epochs : Nat),
      wellIndexed (trainNetworks prior2 o2 epochs).1.additionStats ∧
      wellIndexed (trainNetworks prior2 o2 epochs).1.multiplicationStats ∧
      wellIndexed (trainNetworks prior2 o2 epochs).1.mergedStats ∧
      trainNetworks prior2 o2 epochs =
        trainNetworks emptyTrainState o2 epochs ∧
      (trainNetworks prior2 o2 0).1 = emptyTrainState) ∧
    (trainNetworks prior o 50).2 = true ∧
    (trainNetworks prior o 50).1.additionStats.length = 50 ∧
    (trainNetworks prior o 50).1.multiplicationStats.length = 50 ∧
    (trainNetworks prior o 50).1.mergedStats.length = 50 ∧
    ((trainNetworks prior o 50).1.additionStats.getD 49
      { epoch := 0, loss := 0, accuracy := 0 }).epoch = 50 ∧
    ((trainNetworks prior o 50).1.multiplicationStats.getD 49
      { epoch := 0, loss := 0, accuracy := 0 }).epoch = 50 ∧
    ((trainNetworks prior o 50).1.mergedStats.getD 49
      { epoch := 0, loss := 0, accuracy := 0 }).epoch = 50 := by
  have hrun : trainNetworks prior o 50 = (completedStats o 50, true) := by
    show runSessionAux o 50 0 emptyTrainState = _
    exact session_complete o 50 h50
  constructor
  · intro prior2 o2 epochs
    have hw := runSessionAux_wellIndexed o2 epochs 0
    rw [completedStats_zero] at hw
    exact ⟨hw.1, hw.2.1, hw.2.2, rfl, rfl⟩
  refine ⟨by rw [hrun], ?_, ?_, ?_, ?_, ?_, ?_⟩
  all_goals rw [hrun]
  · simp [completedStats]
  · simp [completedStats]
  · simp [completedStats]
  all_goals
    simp only [completedStats, List.getD_eq_getElem?_getD,
      List.getElem?_map, List.getElem?_range (show 49 < 50 from by omega)]
    simp [addStat, multStat, mergedStat]

/-- Witness for C7 at the all-successful oracle over 50 epochs. -/
theorem epoch_indices_correct_witness :
    (trainNetworks emptyTrainState allOkOracle 50).1.additionStats.length
      = 50 :=
  (epoch_indices_correct emptyTrainState allOkOracle (by decide)).2.2.1

end RetroNeural
